import Mathlib

/-!
# Verification of the ZetsuQRCodeZ artistic QR compositor and link registry

Shallow embedding of the repository's two logic-bearing parts:

* the artistic QR compositor `generateArtisticQR` from `src/App.tsx`
  (canvas drawing is modelled as a list of per-pixel draw operations over ℚ
  coordinates, folded into a final colour at each sample point);
* the Express/SQLite link registry from `server.ts` (the database is an
  explicit state record, each endpoint an explicit state-passing function).
-/

/-! ## Colours and canvas draw operations

The canvas 2D context is modelled per pixel: a draw operation either leaves a
point's colour unchanged (point not covered) or replaces/blends it.  Colour
channels are rationals on the 0–255 scale used by the source's
`rgba(0,0,0,0.9)` / `rgba(255,255,255,0.9)` / `'black'` / `'white'` literals.
-/

structure Color where
  r : ℚ
  g : ℚ
  b : ℚ
deriving DecidableEq, Repr

def black : Color := ⟨0, 0, 0⟩

def white : Color := ⟨255, 255, 255⟩

/-- Source-over alpha blending of `src` at opacity `a` onto `dst`. -/
def blend (a : ℚ) (src dst : Color) : Color :=
  ⟨a * src.r + (1 - a) * dst.r,
   a * src.g + (1 - a) * dst.g,
   a * src.b + (1 - a) * dst.b⟩

/-- A canvas draw command: `ctx.arc`+`fill` with an rgba fill style, or an
opaque `ctx.fillRect`. -/
inductive DrawOp where
  | circle (cx cy radius : ℚ) (color : Color) (alpha : ℚ)
  | rect (x y w h : ℚ) (color : Color)
deriving DecidableEq, Repr

/-- Effect of one draw operation on the colour at point `(px, py)`:
a filled circle blends its colour at its opacity over every covered point,
an opaque rectangle (`fillRect`, covering `[x, x+w) × [y, y+h)`) overwrites. -/
def applyOp (op : DrawOp) (px py : ℚ) (c : Color) : Color :=
  match op with
  | .circle cx cy radius col a =>
      if (px - cx) ^ 2 + (py - cy) ^ 2 ≤ radius ^ 2 then blend a col c else c
  | .rect x y w h col =>
      if x ≤ px ∧ px < x + w ∧ y ≤ py ∧ py < y + h then col else c

/-- Colour at `(px, py)` after drawing the background image (`ctx.drawImage`
fills the whole canvas) and then every operation of `ops`, in order. -/
def render (ops : List DrawOp) (bg : ℚ → ℚ → Color) (px py : ℚ) : Color :=
  ops.foldl (fun c op => applyOp op px py c) (bg px py)

/-! ## The compositor (`generateArtisticQR`, `src/App.tsx` lines 192–247)

`modules` abstracts the encoder's module matrix (`qr.modules`): a boolean
dark/light function on `moduleCount × moduleCount` cells. -/

/-- The module scale `size / moduleCount` with the fixed `size = 1024` canvas. -/
def scale (n : ℕ) : ℚ := 1024 / n

/-- The finder-region test of the dot loop:
`(row < 7 && col < 7) || (row < 7 && col >= moduleCount - 7) ||
 (row >= moduleCount - 7 && col < 7)`. -/
def isFinder (n row col : ℕ) : Bool :=
  (decide (row < 7) && decide (col < 7)) ||
  (decide (row < 7) && decide (n - 7 ≤ col)) ||
  (decide (n - 7 ≤ row) && decide (col < 7))

/-- The dot drawn for cell `(row, col)`: a circle centred at
`(col*scale + scale/2, row*scale + scale/2)`, radius `scale * 0.18`, filled
`rgba(0,0,0,0.9)` when dark and `rgba(255,255,255,0.9)` when light. -/
def cellCircle (n row col : ℕ) (isDark : Bool) : DrawOp :=
  .circle (col * scale n + scale n / 2) (row * scale n + scale n / 2)
    (scale n * (18 / 100)) (if isDark then black else white) (9 / 10)

/-- The dot pass: the row-major double loop over all cells, skipping
(`continue`) every cell inside a finder region. -/
def dotOps (n : ℕ) (m : ℕ → ℕ → Bool) : List DrawOp :=
  (List.range n).flatMap fun row =>
    (List.range n).filterMap fun col =>
      if isFinder n row col then none else some (cellCircle n row col (m row col))

/-- Finder overlay `drawFinder(x, y)`: three opaque `fillRect`s — 7×7 black, 5×5 white inset
one module, 3×3 black inset two modules. -/
def drawFinder (n : ℕ) (x y : ℕ) : List DrawOp :=
  [ .rect (x * scale n) (y * scale n) (7 * scale n) (7 * scale n) black,
    .rect ((x + 1 : ℕ) * scale n) ((y + 1 : ℕ) * scale n) (5 * scale n) (5 * scale n) white,
    .rect ((x + 2 : ℕ) * scale n) ((y + 2 : ℕ) * scale n) (3 * scale n) (3 * scale n) black ]

/-- The three finder overlays, in source order:
`drawFinder(0,0); drawFinder(moduleCount-7, 0); drawFinder(0, moduleCount-7)`. -/
def finderOps (n : ℕ) : List DrawOp :=
  drawFinder n 0 0 ++ drawFinder n (n - 7) 0 ++ drawFinder n 0 (n - 7)

/-- Every draw operation of one composite run, in source order: the dot pass
followed by the three finder overlays (the background fill is the `bg`
argument of `render`). -/
def compositeOps (n : ℕ) (m : ℕ → ℕ → Bool) : List DrawOp :=
  dotOps n m ++ finderOps n

/-- The centre of a circle operation (`none` for rectangles). -/
def centerOf : DrawOp → Option (ℚ × ℚ)
  | .circle cx cy _ _ _ => some (cx, cy)
  | .rect _ _ _ _ _ => none

/-- Midpoint of cell `(row, col)`. -/
def cellCenter (n row col : ℕ) : ℚ × ℚ :=
  (col * scale n + scale n / 2, row * scale n + scale n / 2)

/-! ### Basic geometry lemmas -/

theorem scale_pos {n : ℕ} (hn : 0 < n) : 0 < scale n := by
  have : (0 : ℚ) < n := by exact_mod_cast hn
  exact div_pos (by norm_num) this

theorem cell_coord_inj {n : ℕ} (hn : 0 < n) {a b : ℕ}
    (h : (a : ℚ) * scale n + scale n / 2 = (b : ℚ) * scale n + scale n / 2) :
    a = b := by
  have hs := scale_pos hn
  have : (a : ℚ) * scale n = (b : ℚ) * scale n := by linarith
  have : (a : ℚ) = b := mul_right_cancel₀ (ne_of_gt hs) this
  exact_mod_cast this

/-! ### List helpers for the dot-pass analysis -/

theorem filter_flatMap_eq {α β : Type} (l : List α) (f : α → List β) (p : β → Bool) :
    (l.flatMap f).filter p = l.flatMap fun a => (f a).filter p := by
  induction l with
  | nil => simp
  | cons a l ih => simp [List.flatMap_cons, List.filter_append, ih]

theorem filter_filterMap_eq {α β : Type} (l : List α) (g : α → Option β) (p : β → Bool) :
    (l.filterMap g).filter p = l.flatMap fun a => ((g a).toList).filter p := by
  induction l with
  | nil => simp
  | cons a l ih =>
    cases h : g a with
    | none => simp [List.filterMap_cons, h, ih]
    | some b =>
      simp only [List.filterMap_cons, h, Option.toList_some, List.flatMap_cons,
        List.filter_cons, List.filter_nil]
      cases hp : p b <;> simp [ih]

theorem flatMap_eq_nil_of {α β : Type} (l : List α) (f : α → List β)
    (h : ∀ a ∈ l, f a = []) : l.flatMap f = [] := by
  induction l with
  | nil => simp
  | cons a l ih =>
    simp only [List.flatMap_cons, h a (List.mem_cons_self a l), List.nil_append]
    exact ih fun a ha => h a (List.mem_cons_of_mem _ ha)

theorem flatMap_eq_single {α β : Type} {l : List α} {r : α} {x : β} (f : α → List β)
    (hl : l.Nodup) (hr : r ∈ l) (hfr : f r = [x])
    (h0 : ∀ a ∈ l, a ≠ r → f a = []) : l.flatMap f = [x] := by
  induction l with
  | nil => cases hr
  | cons a l ih =>
    rcases List.mem_cons.mp hr with rfl | hmem
    · have hnil : l.flatMap f = [] := by
        apply flatMap_eq_nil_of
        intro b hb
        exact h0 b (List.mem_cons_of_mem _ hb) (fun hbr => (List.nodup_cons.mp hl).1 (hbr ▸ hb))
      simp [List.flatMap_cons, hfr, hnil]
    · have hane : a ≠ r := fun har => (List.nodup_cons.mp hl).1 (har ▸ hmem)
      have hnila : f a = [] := h0 a (List.mem_cons_self a l) hane
      simp only [List.flatMap_cons, hnila, List.nil_append]
      exact ih (List.nodup_cons.mp hl).2 hmem fun b hb => h0 b (List.mem_cons_of_mem _ hb)

theorem c1_center_ne {n : ℕ} (hn : 0 < n) {row col r c : ℕ} (h : row ≠ r ∨ col ≠ c) (d : Bool) :
    (decide (centerOf (cellCircle n row col d) = some (cellCenter n r c))) = false := by
  apply decide_eq_false
  intro hcen
  simp only [centerOf, cellCircle, cellCenter, Option.some.injEq, Prod.mk.injEq] at hcen
  rcases h with h | h
  · exact h (cell_coord_inj hn hcen.2)
  · exact h (cell_coord_inj hn hcen.1)

theorem c1_center_eq {n : ℕ} (r c : ℕ) (d : Bool) :
    (decide (centerOf (cellCircle n r c d) = some (cellCenter n r c))) = true := by
  simp [centerOf, cellCircle, cellCenter]

/-- C1: in the dot pass, the operations whose centre is the midpoint of cell
`(r, c)` are exactly: none when the cell lies in one of the three 7×7 finder
regions, and otherwise the single filled circle of radius `0.18 * scale`,
black at opacity 0.9 when the module is dark and white at opacity 0.9 when
light. -/
theorem dot_pass_per_cell (n : ℕ) (m : ℕ → ℕ → Bool) (r c : ℕ)
    (hn : 0 < n) (hr : r < n) (hc : c < n) :
    (dotOps n m).filter (fun op => decide (centerOf op = some (cellCenter n r c))) =
      if isFinder n r c then [] else [cellCircle n r c (m r c)] := by
  have hrow : ∀ row : ℕ,
      ((List.range n).filterMap fun col =>
        if isFinder n row col then none
        else some (cellCircle n row col (m row col))).filter
          (fun op => decide (centerOf op = some (cellCenter n r c))) =
      (List.range n).flatMap fun col =>
        (((if isFinder n row col then none
           else some (cellCircle n row col (m row col))).toList).filter
          (fun op => decide (centerOf op = some (cellCenter n r c)))) := by
    intro row
    exact filter_filterMap_eq _ _ _
  rw [dotOps, filter_flatMap_eq]
  by_cases hf : isFinder n r c
  · simp only [hf, if_true]
    apply flatMap_eq_nil_of
    intro row hrowmem
    rw [hrow row]
    apply flatMap_eq_nil_of
    intro col hcolmem
    by_cases hfin : isFinder n row col
    · simp [hfin]
    · have hne : row ≠ r ∨ col ≠ c := by
        by_contra hcon
        push_neg at hcon
        exact hfin (hcon.1 ▸ hcon.2 ▸ hf)
      simp [hfin, c1_center_ne hn hne]
  · simp only [hf, if_false]
    apply flatMap_eq_single _ (List.nodup_range n) (List.mem_range.mpr hr)
    · rw [hrow r]
      apply flatMap_eq_single _ (List.nodup_range n) (List.mem_range.mpr hc)
      · simp [hf, c1_center_eq]
      · intro col hcolmem hcolne
        by_cases hfin : isFinder n r col
        · simp [hfin]
        · simp [hfin, c1_center_ne hn (Or.inr hcolne)]
    · intro row hrowmem hrowne
      rw [hrow row]
      apply flatMap_eq_nil_of
      intro col hcolmem
      by_cases hfin : isFinder n row col
      · simp [hfin]
      · simp [hfin, c1_center_ne hn (Or.inl hrowne)]

/-- Witness for `dot_pass_per_cell` at `n = 21`, cell `(10, 10)`, all-dark matrix. -/
theorem dot_pass_per_cell_witness :
    0 < 21 ∧ 10 < 21 ∧
    ((dotOps 21 (fun _ _ => true)).filter
        (fun op => decide (centerOf op = some (cellCenter 21 10 10))) =
      if isFinder 21 10 10 then [] else [cellCircle 21 10 10 true]) :=
  ⟨by decide, by decide,
    dot_pass_per_cell 21 (fun _ _ => true) 10 10 (by decide) (by decide) (by decide)⟩

/-! ### The finder-overlay invariant (C2) -/

/-- The half-open axis-aligned square `[ox, ox+side) × [oy, oy+side)`. -/
def inSquare (ox oy side px py : ℚ) : Prop :=
  ox ≤ px ∧ px < ox + side ∧ oy ≤ py ∧ py < oy + side

instance (ox oy side px py : ℚ) : Decidable (inSquare ox oy side px py) := by
  unfold inSquare
  infer_instance

theorem scale_nonneg (n : ℕ) : 0 ≤ scale n :=
  div_nonneg (by norm_num) (Nat.cast_nonneg n)

theorem not_inSquare_left {ox oy side px py : ℚ} (h : px < ox) :
    ¬ inSquare ox oy side px py := fun hc => absurd hc.1 (not_le.mpr h)

theorem not_inSquare_right {ox oy side px py : ℚ} (h : ox + side ≤ px) :
    ¬ inSquare ox oy side px py := fun hc => absurd hc.2.1 (not_lt.mpr h)

theorem not_inSquare_above {ox oy side px py : ℚ} (h : py < oy) :
    ¬ inSquare ox oy side px py := fun hc => absurd hc.2.2.1 (not_le.mpr h)

theorem not_inSquare_below {ox oy side px py : ℚ} (h : oy + side ≤ py) :
    ¬ inSquare ox oy side px py := fun hc => absurd hc.2.2.2 (not_lt.mpr h)

theorem inSquare_core_outer {n x y : ℕ} {px py : ℚ}
    (h : inSquare ((x + 2 : ℕ) * scale n) ((y + 2 : ℕ) * scale n) (3 * scale n) px py) :
    inSquare ((x : ℕ) * scale n) ((y : ℕ) * scale n) (7 * scale n) px py := by
  have hs := scale_nonneg n
  simp only [inSquare] at h ⊢
  push_cast at h ⊢
  obtain ⟨a1, a2, a3, a4⟩ := h
  refine ⟨by nlinarith, by nlinarith, by nlinarith, by nlinarith⟩

theorem inSquare_five_outer {n x y : ℕ} {px py : ℚ}
    (h : inSquare ((x + 1 : ℕ) * scale n) ((y + 1 : ℕ) * scale n) (5 * scale n) px py) :
    inSquare ((x : ℕ) * scale n) ((y : ℕ) * scale n) (7 * scale n) px py := by
  have hs := scale_nonneg n
  simp only [inSquare] at h ⊢
  push_cast at h ⊢
  obtain ⟨a1, a2, a3, a4⟩ := h
  refine ⟨by nlinarith, by nlinarith, by nlinarith, by nlinarith⟩

theorem drawFinder_fold_core {n x y : ℕ} {px py : ℚ} (c : Color)
    (h : inSquare ((x + 2 : ℕ) * scale n) ((y + 2 : ℕ) * scale n) (3 * scale n) px py) :
    (drawFinder n x y).foldl (fun c op => applyOp op px py c) c = black := by
  simp only [inSquare] at h
  simp only [drawFinder, List.foldl_cons, List.foldl_nil, applyOp]
  rw [if_pos h]

theorem drawFinder_fold_ring5 {n x y : ℕ} {px py : ℚ} (c : Color)
    (h5 : inSquare ((x + 1 : ℕ) * scale n) ((y + 1 : ℕ) * scale n) (5 * scale n) px py)
    (h3 : ¬ inSquare ((x + 2 : ℕ) * scale n) ((y + 2 : ℕ) * scale n) (3 * scale n) px py) :
    (drawFinder n x y).foldl (fun c op => applyOp op px py c) c = white := by
  simp only [inSquare] at h5 h3
  simp only [drawFinder, List.foldl_cons, List.foldl_nil, applyOp]
  rw [if_neg h3, if_pos h5]

theorem drawFinder_fold_ring7 {n x y : ℕ} {px py : ℚ} (c : Color)
    (h7 : inSquare ((x : ℕ) * scale n) ((y : ℕ) * scale n) (7 * scale n) px py)
    (h5 : ¬ inSquare ((x + 1 : ℕ) * scale n) ((y + 1 : ℕ) * scale n) (5 * scale n) px py) :
    (drawFinder n x y).foldl (fun c op => applyOp op px py c) c = black := by
  have hs := scale_nonneg n
  simp only [inSquare] at h7 h5
  have h3 : ¬ (((x + 2 : ℕ) : ℚ) * scale n ≤ px ∧
      px < ((x + 2 : ℕ) : ℚ) * scale n + 3 * scale n ∧
      ((y + 2 : ℕ) : ℚ) * scale n ≤ py ∧
      py < ((y + 2 : ℕ) : ℚ) * scale n + 3 * scale n) := by
    intro hc
    apply h5
    push_cast at hc ⊢
    obtain ⟨a1, a2, a3, a4⟩ := hc
    refine ⟨by nlinarith, by nlinarith, by nlinarith, by nlinarith⟩
  simp only [drawFinder, List.foldl_cons, List.foldl_nil, applyOp]
  rw [if_neg h3, if_neg h5, if_pos h7]

theorem drawFinder_fold_off {n x y : ℕ} {px py : ℚ} (c : Color)
    (h : ¬ inSquare ((x : ℕ) * scale n) ((y : ℕ) * scale n) (7 * scale n) px py) :
    (drawFinder n x y).foldl (fun c op => applyOp op px py c) c = c := by
  have hs := scale_nonneg n
  simp only [inSquare] at h
  have h5 : ¬ (((x + 1 : ℕ) : ℚ) * scale n ≤ px ∧
      px < ((x + 1 : ℕ) : ℚ) * scale n + 5 * scale n ∧
      ((y + 1 : ℕ) : ℚ) * scale n ≤ py ∧
      py < ((y + 1 : ℕ) : ℚ) * scale n + 5 * scale n) := by
    intro hc
    apply h
    push_cast at hc ⊢
    obtain ⟨a1, a2, a3, a4⟩ := hc
    refine ⟨by nlinarith, by nlinarith, by nlinarith, by nlinarith⟩
  have h3 : ¬ (((x + 2 : ℕ) : ℚ) * scale n ≤ px ∧
      px < ((x + 2 : ℕ) : ℚ) * scale n + 3 * scale n ∧
      ((y + 2 : ℕ) : ℚ) * scale n ≤ py ∧
      py < ((y + 2 : ℕ) : ℚ) * scale n + 3 * scale n) := by
    intro hc
    apply h
    push_cast at hc ⊢
    obtain ⟨a1, a2, a3, a4⟩ := hc
    refine ⟨by nlinarith, by nlinarith, by nlinarith, by nlinarith⟩
  simp only [drawFinder, List.foldl_cons, List.foldl_nil, applyOp]
  rw [if_neg h3, if_neg h5, if_neg h]

/-- C2: after the dot pass, each of the three finder corners is painted last
as fully opaque nested squares, so sampling any point of the 3×3 core yields
black, any point of the 5×5 ring yields white, and any point of the outer
7×7 ring yields black — for every background image and every module matrix. -/
theorem finder_overlay_invariant (n : ℕ) (hn : 14 ≤ n) (m : ℕ → ℕ → Bool)
    (bg : ℚ → ℚ → Color) (fx fy : ℕ)
    (hcorner : (fx, fy) = (0, 0) ∨ (fx, fy) = (n - 7, 0) ∨ (fx, fy) = (0, n - 7))
    (px py : ℚ) :
    (inSquare ((fx + 2 : ℕ) * scale n) ((fy + 2 : ℕ) * scale n) (3 * scale n) px py →
       render (compositeOps n m) bg px py = black) ∧
    (inSquare ((fx + 1 : ℕ) * scale n) ((fy + 1 : ℕ) * scale n) (5 * scale n) px py ∧
       ¬ inSquare ((fx + 2 : ℕ) * scale n) ((fy + 2 : ℕ) * scale n) (3 * scale n) px py →
       render (compositeOps n m) bg px py = white) ∧
    (inSquare ((fx : ℕ) * scale n) ((fy : ℕ) * scale n) (7 * scale n) px py ∧
       ¬ inSquare ((fx + 1 : ℕ) * scale n) ((fy + 1 : ℕ) * scale n) (5 * scale n) px py →
       render (compositeOps n m) bg px py = black) := by
  have hs := scale_nonneg n
  have h7n : (7 : ℕ) ≤ n := by omega
  have hsub : ((n - 7 : ℕ) : ℚ) = (n : ℚ) - 7 := by
    rw [Nat.cast_sub h7n]
    norm_num
  have hnq : (14 : ℚ) ≤ (n : ℚ) := by exact_mod_cast hn
  have hkey : 7 * scale n ≤ ((n - 7 : ℕ) : ℚ) * scale n := by
    rw [hsub]
    nlinarith
  have hrender : render (compositeOps n m) bg px py =
      (drawFinder n 0 (n - 7)).foldl (fun c op => applyOp op px py c)
        ((drawFinder n (n - 7) 0).foldl (fun c op => applyOp op px py c)
          ((drawFinder n 0 0).foldl (fun c op => applyOp op px py c)
            ((dotOps n m).foldl (fun c op => applyOp op px py c) (bg px py)))) := by
    simp [render, compositeOps, finderOps, List.foldl_append]
  rcases hcorner with hc | hc | hc <;> rw [Prod.mk.injEq] at hc <;> obtain ⟨rfl, rfl⟩ := hc
  · -- top-left corner
    have hoff : inSquare ((0 : ℕ) * scale n) ((0 : ℕ) * scale n) (7 * scale n) px py →
        ∀ c : Color,
        (drawFinder n (n - 7) 0).foldl (fun c op => applyOp op px py c) c = c ∧
        (drawFinder n 0 (n - 7)).foldl (fun c op => applyOp op px py c) c = c := by
      intro h0 c
      obtain ⟨o1, o2, o3, o4⟩ := h0
      simp only [Nat.cast_zero, zero_mul, zero_add] at o2 o4
      constructor
      · exact drawFinder_fold_off c (not_inSquare_left (by linarith))
      · exact drawFinder_fold_off c (not_inSquare_above (by linarith))
    refine ⟨fun h => ?_, fun h => ?_, fun h => ?_⟩
    · have h0 := inSquare_core_outer h
      rw [hrender, drawFinder_fold_core _ h, (hoff h0 _).1, (hoff h0 _).2]
    · have h0 := inSquare_five_outer h.1
      rw [hrender, drawFinder_fold_ring5 _ h.1 h.2, (hoff h0 _).1,
        (hoff h0 _).2]
    · have h0 := h.1
      rw [hrender, drawFinder_fold_ring7 _ h.1 h.2, (hoff h0 _).1,
        (hoff h0 _).2]
  · -- top-right corner
    have hoff : inSquare ((n - 7 : ℕ) * scale n) ((0 : ℕ) * scale n) (7 * scale n) px py →
        ∀ c : Color,
        (drawFinder n 0 0).foldl (fun c op => applyOp op px py c) c = c ∧
        (drawFinder n 0 (n - 7)).foldl (fun c op => applyOp op px py c) c = c := by
      intro h0 c
      obtain ⟨o1, o2, o3, o4⟩ := h0
      simp only [Nat.cast_zero, zero_mul, zero_add] at o3 o4
      constructor
      · exact drawFinder_fold_off c (not_inSquare_right
          (by simp only [Nat.cast_zero, zero_mul, zero_add]; linarith))
      · exact drawFinder_fold_off c (not_inSquare_above (by linarith))
    refine ⟨fun h => ?_, fun h => ?_, fun h => ?_⟩
    · have h0 := inSquare_core_outer h
      rw [hrender, (hoff h0 _).1, drawFinder_fold_core _ h, (hoff h0 _).2]
    · have h0 := inSquare_five_outer h.1
      rw [hrender, (hoff h0 _).1, drawFinder_fold_ring5 _ h.1 h.2,
        (hoff h0 _).2]
    · have h0 := h.1
      rw [hrender, (hoff h0 _).1, drawFinder_fold_ring7 _ h.1 h.2,
        (hoff h0 _).2]
  · -- bottom-left corner
    have hoff : inSquare ((0 : ℕ) * scale n) ((n - 7 : ℕ) * scale n) (7 * scale n) px py →
        ∀ c : Color,
        (drawFinder n 0 0).foldl (fun c op => applyOp op px py c) c = c ∧
        (drawFinder n (n - 7) 0).foldl (fun c op => applyOp op px py c) c = c := by
      intro h0 c
      obtain ⟨o1, o2, o3, o4⟩ := h0
      simp only [Nat.cast_zero, zero_mul, zero_add] at o1 o2
      constructor
      · exact drawFinder_fold_off c (not_inSquare_below
          (by simp only [Nat.cast_zero, zero_mul, zero_add]; linarith))
      · exact drawFinder_fold_off c (not_inSquare_left (by linarith))
    refine ⟨fun h => ?_, fun h => ?_, fun h => ?_⟩
    · have h0 := inSquare_core_outer h
      rw [hrender, (hoff h0 _).1, (hoff h0 _).2, drawFinder_fold_core _ h]
    · have h0 := inSquare_five_outer h.1
      rw [hrender, (hoff h0 _).1, (hoff h0 _).2,
        drawFinder_fold_ring5 _ h.1 h.2]
    · have h0 := h.1
      rw [hrender, (hoff h0 _).1, (hoff h0 _).2,
        drawFinder_fold_ring7 _ h.1 h.2]

/-- Witness for `finder_overlay_invariant`: `n = 21`, top-left corner, the
point `(3·scale, 3·scale)` inside the 3×3 core, over a grey background. -/
theorem finder_overlay_invariant_witness :
    (14 ≤ 21) ∧
    inSquare ((0 + 2 : ℕ) * scale 21) ((0 + 2 : ℕ) * scale 21) (3 * scale 21)
      (3 * scale 21) (3 * scale 21) ∧
    render (compositeOps 21 (fun _ _ => false)) (fun _ _ => ⟨128, 128, 128⟩)
      (3 * scale 21) (3 * scale 21) = black :=
  ⟨by norm_num, by norm_num [inSquare, scale],
    (finder_overlay_invariant 21 (by norm_num) (fun _ _ => false)
        (fun _ _ => ⟨128, 128, 128⟩) 0 0 (Or.inl rfl) (3 * scale 21) (3 * scale 21)).1
      (by norm_num [inSquare, scale])⟩

/-! ## The link registry (`server.ts`)

The SQLite database is a state record; each endpoint is a state-passing
function.  Timestamps (`CURRENT_TIMESTAMP`) are ℕ values supplied by the
caller; the calendar date of a timestamp is its day number `t / 86400`.
Strings play the role of SQLite TEXT, ℕ of INTEGER. -/

structure ShortLink where
  id : String
  targetUrl : String
  createdAt : ℕ
deriving DecidableEq, Repr

structure ScanEvent where
  id : ℕ
  linkId : String
  scannedAt : ℕ
  userAgent : String
deriving DecidableEq, Repr

/-- The whole database: `links`, `scans` (with the AUTOINCREMENT counter
`nextScanId`), and the `settings` table's `is_pro` flag. -/
structure ServerState where
  links : List ShortLink
  scans : List ScanEvent
  nextScanId : ℕ
  isPro : Bool
deriving DecidableEq, Repr

/-- Fresh database: empty tables, `is_pro = 'false'`. -/
def initState : ServerState := ⟨[], [], 1, false⟩

inductive ApiError where
  | invalidInput
  | notFound
  | storageError
deriving DecidableEq, Repr

structure CreateResponse where
  id : String
  shortUrl : String
deriving DecidableEq, Repr

/-- The short URL: the app URL followed by /s/ followed by the id. -/
def shortUrlOf (appUrl id : String) : String := appUrl ++ "/s/" ++ id

/-- Endpoint `POST /api/links`: rejects an empty/missing `targetUrl` (JS falsiness)
with a 400; inserts a row with the `shortid`-generated `newId` (a primary-key
collision would make the INSERT throw, modelled as `storageError`); answers
with the id and the short URL. -/
def createLink (st : ServerState) (appUrl targetUrl newId : String) (now : ℕ) :
    ServerState × Except ApiError CreateResponse :=
  if targetUrl = "" then (st, .error .invalidInput)
  else if st.links.any (fun l => l.id = newId) then (st, .error .storageError)
  else ({ st with links := st.links ++ [⟨newId, targetUrl, now⟩] },
        .ok ⟨newId, shortUrlOf appUrl newId⟩)

/-- The stored user agent (`req.headers` value or `'unknown'`): an absent header, and the empty
string (JS falsy), both become `"unknown"`. -/
def uaOrUnknown : Option String → String
  | none => "unknown"
  | some s => if s = "" then "unknown" else s

/-- Endpoint `GET /s/:id`: look the link up; if present, insert one scan row (current
time, user agent) and redirect to the stored `target_url`; else 404 with no
write. -/
def resolveLink (st : ServerState) (id : String) (now : ℕ) (userAgent : Option String) :
    ServerState × Except ApiError String :=
  match st.links.find? (fun l => l.id = id) with
  | some l =>
      ({ st with
          scans := st.scans ++ [⟨st.nextScanId, id, now, uaOrUnknown userAgent⟩],
          nextScanId := st.nextScanId + 1 }, .ok l.targetUrl)
  | none => (st, .error .notFound)

/-- Endpoint `DELETE /api/links/:id`: `DELETE FROM scans WHERE link_id = ?`, then
`DELETE FROM links WHERE id = ?`; the response is success exactly when the
second delete changed a row. -/
def deleteLink (st : ServerState) (id : String) : ServerState × Bool :=
  ({ st with
      scans := st.scans.filter (fun e => ¬ e.linkId = id),
      links := st.links.filter (fun l => ¬ l.id = id) },
   st.links.any (fun l => l.id = id))

/-- SQLite `date(scanned_at)`: the calendar-date component of a timestamp. -/
def dateOf (t : ℕ) : ℕ := t / 86400

structure DetailResponse where
  link : ShortLink
  scans : List ScanEvent
  chartData : List (ℕ × ℕ)
deriving DecidableEq, Repr

/-- Comparator of `ORDER BY scanned_at DESC`. -/
def scanDesc : ScanEvent → ScanEvent → Prop := fun a b => b.scannedAt ≤ a.scannedAt

instance : DecidableRel scanDesc := fun _ _ => Nat.decLe _ _

instance : IsTotal ScanEvent scanDesc :=
  ⟨fun a b => le_total b.scannedAt a.scannedAt⟩

instance : IsTrans ScanEvent scanDesc :=
  ⟨fun _ _ _ h1 h2 => le_trans h2 h1⟩

/-- Endpoint `GET /api/analytics/:id`: 404 for an unknown id; otherwise the link row,
its scans ordered `scanned_at DESC`, and `chartData` — the scans grouped by
`date(scanned_at)` with a count per group, ordered `date ASC`. -/
def getDetail (st : ServerState) (id : String) : Except ApiError DetailResponse :=
  match st.links.find? (fun l => l.id = id) with
  | none => .error .notFound
  | some l =>
      let evs := st.scans.filter (fun e => e.linkId = id)
      let dates := ((evs.map (fun e => dateOf e.scannedAt)).dedup).insertionSort (· ≤ ·)
      .ok ⟨l, evs.insertionSort scanDesc,
           dates.map (fun d => (d, (evs.filter (fun e => dateOf e.scannedAt = d)).length))⟩

structure LinkEntry where
  link : ShortLink
  scanCount : ℕ
deriving DecidableEq, Repr

/-- Comparator of `ORDER BY l.created_at DESC`. -/
def entryDesc : LinkEntry → LinkEntry → Prop :=
  fun a b => b.link.createdAt ≤ a.link.createdAt

instance : DecidableRel entryDesc := fun _ _ => Nat.decLe _ _

instance : IsTotal LinkEntry entryDesc :=
  ⟨fun a b => le_total b.link.createdAt a.link.createdAt⟩

instance : IsTrans LinkEntry entryDesc :=
  ⟨fun _ _ _ h1 h2 => le_trans h2 h1⟩

/-- The dashboard query: one row per link (`GROUP BY l.id` over the LEFT
JOIN), `scan_count = COUNT(s.id)`, ordered `created_at DESC`. -/
def listLinksFull (st : ServerState) : List LinkEntry :=
  (st.links.map (fun l =>
    ⟨l, (st.scans.filter (fun e => e.linkId = l.id)).length⟩)).insertionSort entryDesc

structure ListResponse where
  isPro : Bool
  links : List LinkEntry
  totalCount : ℕ
  hiddenCount : ℕ
deriving DecidableEq, Repr

/-- Endpoint `GET /api/links`: reads `is_pro`; when not pro and more than 2 links,
returns the first 2 with the hidden count and `isPro: false`; otherwise the
whole list with `hiddenCount: 0` and a hard-coded `isPro: true`. -/
def listLinksEndpoint (st : ServerState) : ListResponse :=
  if ¬ st.isPro ∧ 2 < (listLinksFull st).length then
    ⟨false, (listLinksFull st).take 2, (listLinksFull st).length,
      (listLinksFull st).length - 2⟩
  else
    ⟨true, listLinksFull st, (listLinksFull st).length, 0⟩

/-- Endpoint `POST /api/webhook`: an invalid Stripe signature is a 400 with no state
change (`sigOk = false`); a verified event flips `is_pro` to `'true'` exactly
when its type is `checkout.session.completed`, and always answers
`{received: true}`. -/
def webhook (st : ServerState) (sigOk : Bool) (eventType : String) :
    ServerState × Bool :=
  if sigOk then
    if eventType = "checkout.session.completed" then
      ({ st with isPro := true }, true)
    else (st, true)
  else (st, false)

/-- One client-visible operation of the server (read-only endpoints —
`GET /api/links`, `GET /api/analytics/:id`, `GET /api/pro-status`,
`POST /api/checkout` — only SELECT and are state-identity). -/
inductive Op where
  | create (appUrl targetUrl newId : String) (now : ℕ)
  | resolve (id : String) (now : ℕ) (userAgent : Option String)
  | delete (id : String)
  | webhookEvent (sigOk : Bool) (eventType : String)
  | readOnly
deriving DecidableEq, Repr

/-- State transition of one operation. -/
def stepOp : Op → ServerState → ServerState
  | .create a t i n, st => (createLink st a t i n).1
  | .resolve i n ua, st => (resolveLink st i n ua).1
  | .delete i, st => (deleteLink st i).1
  | .webhookEvent s t, st => (webhook st s t).1
  | .readOnly, st => st

/-- Referential integrity: every scan row points at an existing link. -/
def scansReferential (st : ServerState) : Prop :=
  ∀ e ∈ st.scans, ∃ l ∈ st.links, l.id = e.linkId

/-! ## The generation pipeline (C3)

`generateArtisticQR` in `App.tsx`: create a tracking link, stylize the image
(opaque collaborator, success abstracted as `stylizeOk`), then
`QRCode.create(shortUrl, { errorCorrectionLevel: 'H' })`.  The encoder is
opaque; the record below captures the one invocation the compositor makes. -/

inductive ECLevel where
  | L
  | M
  | Q
  | H
deriving DecidableEq, Repr

/-- One invocation of the opaque QR encoder. -/
structure QRInvocation where
  payload : String
  level : ECLevel
deriving DecidableEq, Repr

inductive GenError where
  | apiError (e : ApiError)
  | stylizeFailed
deriving DecidableEq, Repr

/-- The generation request: `POST /api/links` with the user's `targetUrl`,
then (after stylization) encode the returned `shortUrl` at level `'H'`. -/
def generateArtisticQR (st : ServerState) (appUrl targetUrl newId : String)
    (now : ℕ) (stylizeOk : Bool) : ServerState × Except GenError QRInvocation :=
  match createLink st appUrl targetUrl newId now with
  | (st1, .error e) => (st1, .error (.apiError e))
  | (st1, .ok resp) =>
      if stylizeOk then (st1, .ok ⟨resp.shortUrl, ECLevel.H⟩)
      else (st1, .error .stylizeFailed)

/-- C3: every QR matrix the compositor requests encodes exactly the short
tracking URL returned by the registry's create operation, always at
error-correction level `H`. -/
theorem qr_payload_is_short_url (st : ServerState) (appUrl targetUrl newId : String)
    (now : ℕ) (stylizeOk : Bool) (st1 : ServerState) (inv : QRInvocation)
    (h : generateArtisticQR st appUrl targetUrl newId now stylizeOk = (st1, Except.ok inv)) :
    ∃ resp : CreateResponse,
      (createLink st appUrl targetUrl newId now).2 = Except.ok resp ∧
      inv.payload = resp.shortUrl ∧ inv.level = ECLevel.H := by
  unfold generateArtisticQR at h
  rcases hcl : createLink st appUrl targetUrl newId now with ⟨st2, res⟩
  rw [hcl] at h
  cases res with
  | error e => simp at h
  | ok resp =>
    cases stylizeOk with
    | false => simp at h
    | true =>
      simp only [if_true] at h
      obtain ⟨h1, h2⟩ := Prod.mk.injEq .. |>.mp h
      obtain rfl := Except.ok.injEq .. |>.mp h2
      exact ⟨resp, by simp [hcl], rfl, rfl⟩

/-- Witness for `qr_payload_is_short_url` on a fresh state. -/
theorem qr_payload_is_short_url_witness :
    (generateArtisticQR initState "http://localhost:3000" "http://example.com" "abc123" 5 true =
      ((⟨[⟨"abc123", "http://example.com", 5⟩], [], 1, false⟩ : ServerState),
        Except.ok ⟨"http://localhost:3000/s/abc123", ECLevel.H⟩)) ∧
    ∃ resp : CreateResponse,
      (createLink initState "http://localhost:3000" "http://example.com" "abc123" 5).2 =
        Except.ok resp ∧
      (QRInvocation.payload ⟨"http://localhost:3000/s/abc123", ECLevel.H⟩) = resp.shortUrl ∧
      (QRInvocation.level ⟨"http://localhost:3000/s/abc123", ECLevel.H⟩) = ECLevel.H :=
  ⟨rfl, qr_payload_is_short_url initState "http://localhost:3000" "http://example.com"
    "abc123" 5 true ⟨[⟨"abc123", "http://example.com", 5⟩], [], 1, false⟩
    ⟨"http://localhost:3000/s/abc123", ECLevel.H⟩ rfl⟩

/-! ## Registry contracts -/

theorem find?_append_none {α : Type} {p : α → Bool} {l1 : List α} (l2 : List α)
    (h : ∀ x ∈ l1, p x = false) : (l1 ++ l2).find? p = l2.find? p := by
  induction l1 with
  | nil => simp
  | cons a l ih =>
    have ha := h a (List.mem_cons_self a l)
    simp only [List.cons_append, List.find?_cons, ha]
    exact ih fun x hx => h x (List.mem_cons_of_mem _ hx)

/-- Inversion of a successful `createLink` call. -/
theorem createLink_ok {st st1 : ServerState} {appUrl u newId : String} {now : ℕ}
    {resp : CreateResponse}
    (h : createLink st appUrl u newId now = (st1, Except.ok resp)) :
    u ≠ "" ∧ (∀ l ∈ st.links, ¬ l.id = newId) ∧
    st1 = { st with links := st.links ++ [⟨newId, u, now⟩] } ∧
    resp = ⟨newId, shortUrlOf appUrl newId⟩ := by
  unfold createLink at h
  split_ifs at h with h1 h2
  · simp at h
  · simp at h
  · obtain ⟨hst, hresp⟩ := Prod.mk.injEq .. |>.mp h
    refine ⟨h1, ?_, hst.symm, (Except.ok.injEq .. |>.mp hresp).symm⟩
    intro l hl hid
    exact h2 (List.any_eq_true.mpr ⟨l, hl, by simp [hid]⟩)

/-- C4: resolving an existing id returns exactly the stored `targetUrl` and
appends exactly one scan event (the caller's user agent, or `"unknown"` when
absent); in particular create-then-resolve round-trips the target URL;
resolving an unknown id fails `notFound` and leaves the state — in
particular the scan table — unchanged. -/
theorem resolveLink_contract :
    (∀ st id now ua l, st.links.find? (fun x => x.id = id) = some l →
       (resolveLink st id now ua).2 = Except.ok l.targetUrl ∧
       (resolveLink st id now ua).1.scans =
         st.scans ++ [⟨st.nextScanId, id, now, uaOrUnknown ua⟩]) ∧
    (∀ s : String, s ≠ "" → uaOrUnknown (some s) = s) ∧
    (uaOrUnknown none = "unknown") ∧
    (∀ st appUrl u newId now now2 ua st1 resp,
       createLink st appUrl u newId now = (st1, Except.ok resp) →
       (resolveLink st1 resp.id now2 ua).2 = Except.ok u ∧
       (resolveLink st1 resp.id now2 ua).1.scans =
         st1.scans ++ [⟨st1.nextScanId, resp.id, now2, uaOrUnknown ua⟩]) ∧
    (∀ st id now ua, st.links.find? (fun x => x.id = id) = none →
       (resolveLink st id now ua).2 = Except.error ApiError.notFound ∧
       (resolveLink st id now ua).1 = st) := by
  have hok : ∀ st id now ua l, st.links.find? (fun x => x.id = id) = some l →
      (resolveLink st id now ua).2 = Except.ok l.targetUrl ∧
      (resolveLink st id now ua).1.scans =
        st.scans ++ [⟨st.nextScanId, id, now, uaOrUnknown ua⟩] := by
    intro st id now ua l hfind
    simp [resolveLink, hfind]
  refine ⟨hok, ?_, rfl, ?_, ?_⟩
  · intro s hs
    simp [uaOrUnknown, hs]
  · intro st appUrl u newId now now2 ua st1 resp hcreate
    obtain ⟨hu, hfresh, hst1, hresp⟩ := createLink_ok hcreate
    have hfind : st1.links.find? (fun x => x.id = resp.id) =
        some ⟨newId, u, now⟩ := by
      subst hst1 hresp
      simp only []
      rw [find?_append_none]
      · simp
      · intro x hx
        simp [hfresh x hx]
    have := hok st1 resp.id now2 ua ⟨newId, u, now⟩ hfind
    exact this
  · intro st id now ua hfind
    simp [resolveLink, hfind]

/-- Witness for `resolveLink_contract`: one link, resolved without a
user-agent header. -/
theorem resolveLink_contract_witness :
    ((⟨[⟨"abc", "http://t.example", 3⟩], [], 1, false⟩ : ServerState).links.find?
        (fun x => x.id = "abc") = some ⟨"abc", "http://t.example", 3⟩) ∧
    ((resolveLink ⟨[⟨"abc", "http://t.example", 3⟩], [], 1, false⟩ "abc" 9 none).2 =
        Except.ok "http://t.example" ∧
     (resolveLink ⟨[⟨"abc", "http://t.example", 3⟩], [], 1, false⟩ "abc" 9 none).1.scans =
       [] ++ [⟨1, "abc", 9, uaOrUnknown none⟩]) :=
  ⟨by decide, resolveLink_contract.1 ⟨[⟨"abc", "http://t.example", 3⟩], [], 1, false⟩
    "abc" 9 none ⟨"abc", "http://t.example", 3⟩ (by decide)⟩

/-- States reachable from a fresh database by client-visible operations. -/
def Reachable (st : ServerState) : Prop :=
  ∃ ops : List Op, st = ops.foldl (fun s op => stepOp op s) initState

theorem initState_referential : scansReferential initState := by
  intro e he
  simp [initState] at he

theorem createLink_state (st : ServerState) (a t i : String) (n : ℕ) :
    (createLink st a t i n).1.scans = st.scans ∧
    ((createLink st a t i n).1.links = st.links ∨
     (createLink st a t i n).1.links = st.links ++ [⟨i, t, n⟩]) := by
  unfold createLink
  split_ifs <;> simp

theorem resolveLink_state (st : ServerState) (id : String) (now : ℕ) (ua : Option String) :
    (resolveLink st id now ua).1.links = st.links ∧
    (st.links.find? (fun l => l.id = id) = none ∧
       (resolveLink st id now ua).1.scans = st.scans ∨
     ∃ l, st.links.find? (fun l => l.id = id) = some l ∧
       (resolveLink st id now ua).1.scans =
         st.scans ++ [⟨st.nextScanId, id, now, uaOrUnknown ua⟩]) := by
  unfold resolveLink
  rcases hfind : st.links.find? (fun l => l.id = id) with _ | l
  · rw [hfind]
    exact ⟨rfl, Or.inl ⟨rfl, rfl⟩⟩
  · rw [hfind]
    exact ⟨rfl, Or.inr ⟨l, rfl, rfl⟩⟩

theorem webhook_state (st : ServerState) (s : Bool) (t : String) :
    (webhook st s t).1.links = st.links ∧ (webhook st s t).1.scans = st.scans := by
  unfold webhook
  split_ifs <;> simp

theorem stepOp_referential (op : Op) (st : ServerState) (h : scansReferential st) :
    scansReferential (stepOp op st) := by
  cases op with
  | create a t i n =>
    intro e he
    simp only [stepOp] at he ⊢
    obtain ⟨hsc, hln⟩ := createLink_state st a t i n
    rw [hsc] at he
    obtain ⟨l, hl, hid⟩ := h e he
    rcases hln with hln | hln
    · exact ⟨l, hln ▸ hl, hid⟩
    · exact ⟨l, hln ▸ List.mem_append.mpr (Or.inl hl), hid⟩
  | resolve i n ua =>
    intro e he
    simp only [stepOp] at he ⊢
    obtain ⟨hln, hsc⟩ := resolveLink_state st i n ua
    rw [hln]
    rcases hsc with ⟨_, hsc⟩ | ⟨l, hfind, hsc⟩
    · rw [hsc] at he
      exact h e he
    · rw [hsc] at he
      rcases List.mem_append.mp he with he | he
      · exact h e he
      · obtain rfl := List.mem_singleton.mp he
        refine ⟨l, List.mem_of_find?_eq_some hfind, ?_⟩
        have := List.find?_some hfind
        simpa using this
  | delete i =>
    intro e he
    simp only [stepOp] at he ⊢
    have hsc : (deleteLink st i).1.scans =
        st.scans.filter (fun e => ¬ e.linkId = i) := rfl
    have hln : (deleteLink st i).1.links =
        st.links.filter (fun l => ¬ l.id = i) := rfl
    rw [hsc] at he
    rw [hln]
    obtain ⟨hmem, hne⟩ := List.mem_filter.mp he
    obtain ⟨l, hl, hid⟩ := h e hmem
    refine ⟨l, List.mem_filter.mpr ⟨hl, ?_⟩, hid⟩
    simp only [decide_not, Bool.not_eq_true'] at hne ⊢
    rw [hid]
    exact hne
  | webhookEvent s t =>
    intro e he
    simp only [stepOp] at he ⊢
    obtain ⟨hln, hsc⟩ := webhook_state st s t
    rw [hln]
    rw [hsc] at he
    exact h e he
  | readOnly => exact h

theorem foldl_referential (ops : List Op) (st0 : ServerState)
    (h : scansReferential st0) :
    scansReferential (ops.foldl (fun s op => stepOp op s) st0) := by
  induction ops generalizing st0 with
  | nil => exact h
  | cons op ops ih => exact ih _ (stepOp_referential op st0 h)

/-- C5: deleting an existing id removes its scan events and its link in one
step (success response), after which `getDetail` is `notFound`; deleting an
unknown id answers not-found and — on any reachable state, all of which
satisfy referential integrity — changes nothing. -/
theorem deleteLink_contract :
    (∀ st, Reachable st → scansReferential st) ∧
    (∀ st id, st.links.any (fun l => l.id = id) = true →
       (deleteLink st id).2 = true ∧
       (deleteLink st id).1.scans = st.scans.filter (fun e => ¬ e.linkId = id) ∧
       (deleteLink st id).1.links = st.links.filter (fun l => ¬ l.id = id) ∧
       getDetail (deleteLink st id).1 id = Except.error ApiError.notFound) ∧
    (∀ st id, st.links.any (fun l => l.id = id) = false →
       (deleteLink st id).2 = false ∧
       (scansReferential st → (deleteLink st id).1 = st)) := by
  refine ⟨?_, ?_, ?_⟩
  · rintro st ⟨ops, rfl⟩
    exact foldl_referential ops initState initState_referential
  · intro st id hany
    have hnone : ((deleteLink st id).1).links.find? (fun l => l.id = id) = none := by
      apply List.find?_eq_none.mpr
      intro a ha
      simp only [deleteLink, List.mem_filter] at ha
      have := ha.2
      simp only [decide_not, Bool.not_eq_true'] at this
      simp [this]
    exact ⟨by simp [deleteLink, hany], rfl, rfl, by simp [getDetail, hnone]⟩
  · intro st id hany
    refine ⟨by simp [deleteLink, hany], ?_⟩
    intro href
    have hnid : ∀ l ∈ st.links, ¬ l.id = id := by
      intro l hl hx
      have : st.links.any (fun l => l.id = id) = true :=
        List.any_eq_true.mpr ⟨l, hl, by simp [hx]⟩
      rw [this] at hany
      cases hany
    have hlinks : st.links.filter (fun l => ¬ l.id = id) = st.links := by
      apply List.filter_eq_self.mpr
      intro a ha
      simp [hnid a ha]
    have hscans : st.scans.filter (fun e => ¬ e.linkId = id) = st.scans := by
      apply List.filter_eq_self.mpr
      intro e he
      obtain ⟨l, hl, hid⟩ := href e he
      have : ¬ e.linkId = id := fun hx => hnid l hl (hid.trans hx)
      simp [this]
    cases st with
    | mk links scans nid ip =>
      simp only [deleteLink]
      simp only at hlinks hscans
      rw [hlinks, hscans]

/-- Witness for `deleteLink_contract`: delete the only link of a two-table
state carrying one scan event. -/
theorem deleteLink_contract_witness :
    ((⟨[⟨"abc", "t", 3⟩], [⟨1, "abc", 9, "ua"⟩], 2, false⟩ : ServerState).links.any
        (fun l => l.id = "abc") = true) ∧
    ((deleteLink ⟨[⟨"abc", "t", 3⟩], [⟨1, "abc", 9, "ua"⟩], 2, false⟩ "abc").2 = true ∧
     (deleteLink ⟨[⟨"abc", "t", 3⟩], [⟨1, "abc", 9, "ua"⟩], 2, false⟩ "abc").1.scans =
       ([⟨1, "abc", 9, "ua"⟩] : List ScanEvent).filter (fun e => ¬ e.linkId = "abc") ∧
     (deleteLink ⟨[⟨"abc", "t", 3⟩], [⟨1, "abc", 9, "ua"⟩], 2, false⟩ "abc").1.links =
       ([⟨"abc", "t", 3⟩] : List ShortLink).filter (fun l => ¬ l.id = "abc") ∧
     getDetail (deleteLink ⟨[⟨"abc", "t", 3⟩], [⟨1, "abc", 9, "ua"⟩], 2, false⟩ "abc").1
       "abc" = Except.error ApiError.notFound) :=
  ⟨by decide, deleteLink_contract.2.1 ⟨[⟨"abc", "t", 3⟩], [⟨1, "abc", 9, "ua"⟩], 2, false⟩
    "abc" (by decide)⟩

/-- C6: the freemium gate — not pro with more than 2 links: exactly the
first 2 entries of the newest-first list plus `hiddenCount = total - 2`;
pro, or at most 2 links: the whole list with `hiddenCount = 0`. -/
theorem freemium_gate (st : ServerState) :
    (st.isPro = false → 2 < (listLinksFull st).length →
       (listLinksEndpoint st).links = (listLinksFull st).take 2 ∧
       (listLinksEndpoint st).hiddenCount = (listLinksFull st).length - 2 ∧
       (listLinksEndpoint st).totalCount = (listLinksFull st).length) ∧
    (st.isPro = true ∨ (listLinksFull st).length ≤ 2 →
       (listLinksEndpoint st).links = listLinksFull st ∧
       (listLinksEndpoint st).hiddenCount = 0 ∧
       (listLinksEndpoint st).totalCount = (listLinksFull st).length) := by
  unfold listLinksEndpoint
  constructor
  · intro hp hl
    rw [if_pos ⟨by simp [hp], hl⟩]
    exact ⟨rfl, rfl, rfl⟩
  · intro hor
    rw [if_neg]
    · exact ⟨rfl, rfl, rfl⟩
    · rintro ⟨hnp, hgt⟩
      rcases hor with hp | hle
      · exact hnp (by simp [hp])
      · exact absurd hgt (not_lt.mpr hle)

/-- Witness for `freemium_gate`: a non-pro state with three links. -/
theorem freemium_gate_witness :
    ((⟨[⟨"a", "t", 1⟩, ⟨"b", "t", 2⟩, ⟨"c", "t", 3⟩], [], 1, false⟩ : ServerState).isPro
        = false) ∧
    (2 < (listLinksFull ⟨[⟨"a", "t", 1⟩, ⟨"b", "t", 2⟩, ⟨"c", "t", 3⟩], [], 1, false⟩).length) ∧
    ((listLinksEndpoint ⟨[⟨"a", "t", 1⟩, ⟨"b", "t", 2⟩, ⟨"c", "t", 3⟩], [], 1, false⟩).links =
       (listLinksFull ⟨[⟨"a", "t", 1⟩, ⟨"b", "t", 2⟩, ⟨"c", "t", 3⟩], [], 1, false⟩).take 2 ∧
     (listLinksEndpoint ⟨[⟨"a", "t", 1⟩, ⟨"b", "t", 2⟩, ⟨"c", "t", 3⟩], [], 1, false⟩).hiddenCount =
       (listLinksFull ⟨[⟨"a", "t", 1⟩, ⟨"b", "t", 2⟩, ⟨"c", "t", 3⟩], [], 1, false⟩).length - 2 ∧
     (listLinksEndpoint ⟨[⟨"a", "t", 1⟩, ⟨"b", "t", 2⟩, ⟨"c", "t", 3⟩], [], 1, false⟩).totalCount =
       (listLinksFull ⟨[⟨"a", "t", 1⟩, ⟨"b", "t", 2⟩, ⟨"c", "t", 3⟩], [], 1, false⟩).length) :=
  ⟨rfl, by decide,
    (freemium_gate ⟨[⟨"a", "t", 1⟩, ⟨"b", "t", 2⟩, ⟨"c", "t", 3⟩], [], 1, false⟩).1
      rfl (by decide)⟩

/-- C10 (implicit): whenever the full list is returned (pro instance, or at
most 2 links), the response's `isPro` field is hard-coded `true`, even on a
non-pro instance; the stored flag is reported only on the truncated branch. -/
theorem listing_ispro_field (st : ServerState) :
    (st.isPro = true ∨ (listLinksFull st).length ≤ 2 →
       (listLinksEndpoint st).isPro = true) ∧
    (st.isPro = false → 2 < (listLinksFull st).length →
       (listLinksEndpoint st).isPro = false) := by
  unfold listLinksEndpoint
  constructor
  · intro hor
    rw [if_neg]
    rintro ⟨hnp, hgt⟩
    rcases hor with hp | hle
    · exact hnp (by simp [hp])
    · exact absurd hgt (not_lt.mpr hle)
  · intro hp hl
    rw [if_pos ⟨by simp [hp], hl⟩]

/-- Witness for `listing_ispro_field`: a non-pro state with a single link is
reported as pro. -/
theorem listing_ispro_field_witness :
    ((⟨[⟨"a", "t", 1⟩], [], 1, false⟩ : ServerState).isPro = true ∨
      (listLinksFull ⟨[⟨"a", "t", 1⟩], [], 1, false⟩).length ≤ 2) ∧
    (listLinksEndpoint ⟨[⟨"a", "t", 1⟩], [], 1, false⟩).isPro = true :=
  ⟨Or.inr (by decide),
    (listing_ispro_field ⟨[⟨"a", "t", 1⟩], [], 1, false⟩).1 (Or.inr (by decide))⟩

/-- C7: the dashboard list has one entry per stored link, is ordered by
`createdAt` descending, and each entry's `scanCount` is the number of scan
events currently stored for that link (0 when none). -/
theorem listLinks_spec (st : ServerState) :
    List.Sorted entryDesc (listLinksFull st) ∧
    ((listLinksFull st).map LinkEntry.link).Perm st.links ∧
    (∀ en ∈ listLinksFull st,
       en.scanCount = (st.scans.filter (fun e => e.linkId = en.link.id)).length) := by
  refine ⟨List.sorted_insertionSort entryDesc _, ?_, ?_⟩
  · have h1 : ((listLinksFull st).map LinkEntry.link).Perm
        ((st.links.map (fun l =>
          (⟨l, (st.scans.filter (fun e => e.linkId = l.id)).length⟩ : LinkEntry))).map
            LinkEntry.link) :=
      (List.perm_insertionSort entryDesc _).map _
    refine h1.trans ?_
    rw [List.map_map]
    have h2 : (LinkEntry.link ∘ fun l =>
        (⟨l, (st.scans.filter (fun e => e.linkId = l.id)).length⟩ : LinkEntry)) = id := by
      funext l
      rfl
    rw [h2, List.map_id]
  · intro en hen
    have hmem : en ∈ st.links.map (fun l =>
        (⟨l, (st.scans.filter (fun e => e.linkId = l.id)).length⟩ : LinkEntry)) :=
      (List.perm_insertionSort entryDesc _).mem_iff.mp hen
    obtain ⟨l, _, rfl⟩ := List.mem_map.mp hmem
    rfl

/-- Witness for `listLinks_spec`: two links, one scan on the first. -/
theorem listLinks_spec_witness :
    ((⟨⟨"b", "t", 2⟩, 0⟩ : LinkEntry) ∈
        listLinksFull ⟨[⟨"a", "t", 1⟩, ⟨"b", "t", 2⟩], [⟨1, "a", 9, "ua"⟩], 2, false⟩) ∧
    (LinkEntry.scanCount ⟨⟨"b", "t", 2⟩, 0⟩ =
      (([⟨1, "a", 9, "ua"⟩] : List ScanEvent).filter
        (fun e => e.linkId = (LinkEntry.link ⟨⟨"b", "t", 2⟩, 0⟩).id)).length) :=
  ⟨by decide,
    (listLinks_spec ⟨[⟨"a", "t", 1⟩, ⟨"b", "t", 2⟩], [⟨1, "a", 9, "ua"⟩], 2, false⟩).2.2
      ⟨⟨"b", "t", 2⟩, 0⟩ (by decide)⟩

/-- C8: for an existing id, the analytics endpoint returns the link, its
scans newest-first, and `chartData` with exactly one strictly-ascending
entry per calendar date having at least one scan, each entry counting that
date's events; an unknown id fails `notFound`. -/
theorem getDetail_spec (st : ServerState) (id : String) :
    (∀ l, st.links.find? (fun x => x.id = id) = some l →
       ∃ r : DetailResponse, getDetail st id = Except.ok r ∧
         r.link = l ∧
         List.Sorted scanDesc r.scans ∧
         r.scans.Perm (st.scans.filter (fun e => e.linkId = id)) ∧
         (∀ p ∈ r.chartData,
            p.2 = ((st.scans.filter (fun e => e.linkId = id)).filter
              (fun e => dateOf e.scannedAt = p.1)).length ∧ 0 < p.2) ∧
         (∀ e ∈ st.scans.filter (fun e => e.linkId = id),
            ∃ p ∈ r.chartData, p.1 = dateOf e.scannedAt) ∧
         List.Pairwise (fun p q : ℕ × ℕ => p.1 < q.1) r.chartData) ∧
    (st.links.find? (fun x => x.id = id) = none →
       getDetail st id = Except.error ApiError.notFound) := by
  constructor
  · intro l hfind
    refine ⟨_, by unfold getDetail; rw [hfind], rfl, ?_, ?_, ?_, ?_, ?_⟩
    · exact List.sorted_insertionSort scanDesc _
    · exact List.perm_insertionSort scanDesc _
    · intro p hp
      obtain ⟨d, hd, rfl⟩ := List.mem_map.mp hp
      exact ⟨rfl, by
        have hd2 : d ∈ ((st.scans.filter (fun e => e.linkId = id)).map
            (fun e => dateOf e.scannedAt)).dedup :=
          (List.perm_insertionSort _ _).mem_iff.mp hd
        obtain ⟨e, he, hde⟩ := List.mem_map.mp (List.mem_dedup.mp hd2)
        have : e ∈ (st.scans.filter (fun e => e.linkId = id)).filter
            (fun e => dateOf e.scannedAt = d) :=
          List.mem_filter.mpr ⟨he, by simp [hde]⟩
        exact List.length_pos_of_mem this⟩
    · intro e he
      have hd : dateOf e.scannedAt ∈
          (((st.scans.filter (fun e => e.linkId = id)).map
            (fun e => dateOf e.scannedAt)).dedup).insertionSort (· ≤ ·) :=
        (List.perm_insertionSort _ _).mem_iff.mpr
          (List.mem_dedup.mpr (List.mem_map.mpr ⟨e, he, rfl⟩))
      exact ⟨_, List.mem_map.mpr ⟨dateOf e.scannedAt, hd, rfl⟩, rfl⟩
    · rw [List.pairwise_map]
      have hsorted : List.Sorted (· ≤ ·)
          ((((st.scans.filter (fun e => e.linkId = id)).map
            (fun e => dateOf e.scannedAt)).dedup).insertionSort (· ≤ ·)) :=
        List.sorted_insertionSort _ _
      have hnodup : (((st.scans.filter (fun e => e.linkId = id)).map
          (fun e => dateOf e.scannedAt)).dedup).insertionSort (· ≤ ·) |>.Nodup :=
        (List.perm_insertionSort _ _).nodup_iff.mpr (List.nodup_dedup _)
      exact hsorted.lt_of_le hnodup
  · intro hfind
    unfold getDetail
    rw [hfind]

/-- Witness for `getDetail_spec`: one link with scans on two distinct dates
(two on day 0, one on day 2). -/
theorem getDetail_spec_witness :
    ((⟨[⟨"abc", "t", 3⟩],
        [⟨1, "abc", 10, "u"⟩, ⟨2, "abc", 20, "u"⟩, ⟨3, "abc", 172900, "u"⟩], 4,
        false⟩ : ServerState).links.find? (fun x => x.id = "abc") =
      some ⟨"abc", "t", 3⟩) ∧
    ∃ r : DetailResponse,
      getDetail ⟨[⟨"abc", "t", 3⟩],
        [⟨1, "abc", 10, "u"⟩, ⟨2, "abc", 20, "u"⟩, ⟨3, "abc", 172900, "u"⟩], 4,
        false⟩ "abc" = Except.ok r ∧
      r.link = ⟨"abc", "t", 3⟩ ∧
      List.Sorted scanDesc r.scans ∧
      r.scans.Perm ((⟨[⟨"abc", "t", 3⟩],
        [⟨1, "abc", 10, "u"⟩, ⟨2, "abc", 20, "u"⟩, ⟨3, "abc", 172900, "u"⟩], 4,
        false⟩ : ServerState).scans.filter (fun e => e.linkId = "abc")) ∧
      (∀ p ∈ r.chartData,
         p.2 = (((⟨[⟨"abc", "t", 3⟩],
           [⟨1, "abc", 10, "u"⟩, ⟨2, "abc", 20, "u"⟩, ⟨3, "abc", 172900, "u"⟩], 4,
           false⟩ : ServerState).scans.filter (fun e => e.linkId = "abc")).filter
             (fun e => dateOf e.scannedAt = p.1)).length ∧ 0 < p.2) ∧
      (∀ e ∈ (⟨[⟨"abc", "t", 3⟩],
           [⟨1, "abc", 10, "u"⟩, ⟨2, "abc", 20, "u"⟩, ⟨3, "abc", 172900, "u"⟩], 4,
           false⟩ : ServerState).scans.filter (fun e => e.linkId = "abc"),
         ∃ p ∈ r.chartData, p.1 = dateOf e.scannedAt) ∧
      List.Pairwise (fun p q : ℕ × ℕ => p.1 < q.1) r.chartData :=
  ⟨by decide,
    (getDetail_spec ⟨[⟨"abc", "t", 3⟩],
      [⟨1, "abc", 10, "u"⟩, ⟨2, "abc", 20, "u"⟩, ⟨3, "abc", 172900, "u"⟩], 4,
      false⟩ "abc").1 ⟨"abc", "t", 3⟩ (by decide)⟩

theorem createLink_isPro (st : ServerState) (a t i : String) (n : ℕ) :
    (createLink st a t i n).1.isPro = st.isPro := by
  unfold createLink
  split_ifs <;> rfl

theorem resolveLink_isPro (st : ServerState) (i : String) (n : ℕ) (ua : Option String) :
    (resolveLink st i n ua).1.isPro = st.isPro := by
  unfold resolveLink
  rcases hfind : st.links.find? (fun l => l.id = i) with _ | l <;> rw [hfind]

theorem webhook_isPro_char (st : ServerState) (s : Bool) (t : String) :
    (webhook st s t).1.isPro =
      (st.isPro || (s && decide (t = "checkout.session.completed"))) := by
  unfold webhook
  split_ifs with h1 h2
  · simp [h1, h2]
  · simp [h1, h2]
  · simp [h1]

/-- C9: the pro flag starts false, is turned on only by a verified
`checkout.session.completed` webhook event, is never turned back off by any
operation, and the completed-checkout event is idempotent (always answers
received, leaves the flag true, and a repeat is a no-op). -/
theorem proStatus_lifecycle :
    initState.isPro = false ∧
    (∀ op st, st.isPro = true → (stepOp op st).isPro = true) ∧
    (∀ op st, (stepOp op st).isPro = true →
       st.isPro = true ∨ op = Op.webhookEvent true "checkout.session.completed") ∧
    (∀ st, (webhook st true "checkout.session.completed").2 = true ∧
       (webhook st true "checkout.session.completed").1.isPro = true ∧
       (webhook (webhook st true "checkout.session.completed").1 true
          "checkout.session.completed").1 =
         (webhook st true "checkout.session.completed").1) := by
  refine ⟨rfl, ?_, ?_, ?_⟩
  · intro op st h
    cases op with
    | create a t i n =>
      simp only [stepOp]
      rw [createLink_isPro]
      exact h
    | resolve i n ua =>
      simp only [stepOp]
      rw [resolveLink_isPro]
      exact h
    | delete i => exact h
    | webhookEvent s t =>
      simp only [stepOp]
      rw [webhook_isPro_char]
      simp [h]
    | readOnly => exact h
  · intro op st h
    cases op with
    | create a t i n =>
      simp only [stepOp] at h
      rw [createLink_isPro] at h
      exact Or.inl h
    | resolve i n ua =>
      simp only [stepOp] at h
      rw [resolveLink_isPro] at h
      exact Or.inl h
    | delete i => exact Or.inl h
    | webhookEvent s t =>
      simp only [stepOp] at h
      rw [webhook_isPro_char] at h
      rcases Bool.or_eq_true_iff.mp h with h | h
      · exact Or.inl h
      · obtain ⟨hs, ht⟩ := Bool.and_eq_true_iff.mp h
        exact Or.inr (by rw [hs, of_decide_eq_true ht])
    | readOnly => exact Or.inl h
  · intro st
    refine ⟨rfl, rfl, rfl⟩

/-- Witness for `proStatus_lifecycle`: a pro state stays pro across an
operation. -/
theorem proStatus_lifecycle_witness :
    ((⟨[], [], 1, true⟩ : ServerState).isPro = true) ∧
    (stepOp Op.readOnly ⟨[], [], 1, true⟩).isPro = true :=
  ⟨rfl, proStatus_lifecycle.2.1 Op.readOnly ⟨[], [], 1, true⟩ rfl⟩
